import Mathlib

/-!
The mev-boost-relay: registration handling, proposer duties and the payload cache.

A shallow embedding of `api/service.go` (`RelayAPI.updateProposerDuties`,
`RelayAPI.handleRegisterValidator`) and `datastore/memcached.go`
(`Memcached.SaveExecutionPayload`, `Memcached.GetExecutionPayload`).

Conventions of the embedding:

* Go `error` values are `Option GoError` (`none` is `nil`); a Go pointer result is an
  `Option` (`none` is `nil`).
* `uint64` values (slots, epochs, timestamps) are natural numbers; the functions embedded
  here only compare, copy and print them.
* Collaborators reached through interfaces (the proposer datastore, the beacon client, the
  memcache client) are records of functions over an abstract backend state: reads are
  functions of the state, writes return the new state.  Every call made is appended to a
  trace, so that statements of the form "no call is made" can be expressed.
* Library functions outside the repository (`json.Marshal`, `UnmarshalJSON`,
  `types.VerifySignature`, `PubkeyHex`, `NewPubkeyHex`) are parameters.
* The arrays of package `types` (`PublicKey`, `Signature`, `Address`) are byte sequences of
  fixed length; decoding a request body checks the lengths.
-/

namespace MevBoostRelay

/-! ## Errors -/

/-- Go `error` values that occur in the embedded code.  The first two are the sentinel
errors declared in `datastore/memcached.go`, `ErrCacheMiss` is `memcache.ErrCacheMiss`,
`other` is any further error and `wrapped` is an error wrapping another one. -/
inductive GoError where
  | ErrInvalidProposerPublicKey : GoError
  | ErrInvalidBlockHash : GoError
  | ErrCacheMiss : GoError
  | other (msg : String) : GoError
  | wrapped (msg : String) (inner : GoError) : GoError
  deriving DecidableEq, Repr

/-- Go `errors.Is(err, target)`: `err` or an error it wraps is `target`. -/
def errorsIs : GoError → GoError → Bool
  | .wrapped msg inner, target =>
      decide (GoError.wrapped msg inner = target) || errorsIs inner target
  | e, target => decide (e = target)

/-! ## `datastore/memcached.go` -/

/-- A `memcache.Item` as built by `SaveExecutionPayload` (the `Flags` field is unused). -/
structure Item where
  Key : String
  Value : List Nat
  Expiration : Int
  deriving DecidableEq, Repr

/-- Calls made on the memcache client. -/
inductive MemcacheCall where
  | Set (item : Item) : MemcacheCall
  | Get (key : String) : MemcacheCall
  deriving DecidableEq, Repr

/-- The part of `*memcache.Client` used by the code, over a backend state `κ`. -/
structure MemcacheClient (κ : Type) where
  Set : κ → Item → Option GoError × κ
  Get : κ → String → Except GoError Item

/-- The serialisation functions the cache uses: `json.Marshal` on a
`*common.GetPayloadResponse` and `UnmarshalJSON` of `common.VersionedExecutionPayload`. -/
structure PayloadCodec (P V : Type) where
  Marshal : P → Except GoError (List Nat)
  UnmarshalJSON : List Nat → Except GoError V

/-- The `Memcached` struct, with the package variable `defaultMemcachedExpirySeconds`
(read from the environment at start-up) carried along. -/
structure Memcached (κ : Type) where
  client : MemcacheClient κ
  keyPrefix : String
  defaultMemcachedExpirySeconds : Int

/-- Go `%d` of a `uint64`: the decimal digits, most significant first. -/
def formatUint (n : Nat) : String := String.mk (Nat.toDigits 10 n)

/-- The key both cache functions build:
`fmt.Sprintf("boost-relay/%s:cache-getpayload-response:%d_%s_%s", keyPrefix, slot,
proposerPubKey, blockHash)`. -/
def executionPayloadKey (keyPrefix : String) (slot : Nat) (proposerPubKey blockHash : String) :
    String :=
  "boost-relay/" ++ keyPrefix ++ ":cache-getpayload-response:" ++ formatUint slot ++ "_"
    ++ proposerPubKey ++ "_" ++ blockHash

/-- What `SaveExecutionPayload` returns and does. -/
structure SaveResult (κ : Type) where
  err : Option GoError
  backend : κ
  calls : List MemcacheCall

/-- `Memcached.SaveExecutionPayload`. -/
def SaveExecutionPayload {κ P V : Type} (codec : PayloadCodec P V) (m : Memcached κ) (st : κ)
    (slot : Nat) (proposerPubKey blockHash : String) (payload : P) : SaveResult κ :=
  if proposerPubKey = "" then
    ⟨some .ErrInvalidProposerPublicKey, st, []⟩
  else if blockHash = "" then
    ⟨some .ErrInvalidBlockHash, st, []⟩
  else
    let key := executionPayloadKey m.keyPrefix slot proposerPubKey blockHash
    match codec.Marshal payload with
    | .error err => ⟨some err, st, []⟩
    | .ok bytes =>
      let item : Item := ⟨key, bytes, m.defaultMemcachedExpirySeconds⟩
      let r := m.client.Set st item
      ⟨r.1, r.2, [.Set item]⟩

/-- What `GetExecutionPayload` returns and does. -/
structure GetResult (V : Type) where
  payload : Option V
  err : Option GoError
  calls : List MemcacheCall

/-- `Memcached.GetExecutionPayload`. -/
def GetExecutionPayload {κ P V : Type} (codec : PayloadCodec P V) (m : Memcached κ) (st : κ)
    (slot : Nat) (proposerPubKey blockHash : String) : GetResult V :=
  if proposerPubKey = "" then
    ⟨none, some .ErrInvalidProposerPublicKey, []⟩
  else if blockHash = "" then
    ⟨none, some .ErrInvalidBlockHash, []⟩
  else
    let key := executionPayloadKey m.keyPrefix slot proposerPubKey blockHash
    match m.client.Get st key with
    | .error err =>
      if errorsIs err .ErrCacheMiss then ⟨none, none, [.Get key]⟩
      else ⟨none, some err, [.Get key]⟩
    | .ok item =>
      match codec.UnmarshalJSON item.Value with
      | .error err => ⟨none, some err, [.Get key]⟩
      | .ok result => ⟨some result, none, [.Get key]⟩

/-- Modelled from the spec: the cache backend "in which Set stores the value under the key
and Get returns the last value stored under the key"; a key never written is a cache miss.
The backend state is the list of items written, most recent first. -/
def mapClient : MemcacheClient (List Item) where
  Set := fun st item => (none, item :: st)
  Get := fun st key =>
    match st.find? (fun it => decide (it.Key = key)) with
    | some it => .ok it
    | none => .error .ErrCacheMiss

/-- The backend behaviour the overwrite property is stated for: `Set` succeeds and stores
the item under its key, and `Get` on that key then returns the value stored. -/
def SetThenGet {κ : Type} (client : MemcacheClient κ) : Prop :=
  ∀ (st : κ) (item : Item), (client.Set st item).1 = none ∧
    ∃ got, client.Get (client.Set st item).2 item.Key = .ok got ∧ got.Value = item.Value

/-- The value of a decimal digit character. -/
def charDigit (c : Char) : Nat := c.toNat - 48

/-! ## `api/service.go`: data -/

/-- A Go array `[n]byte`: a sequence of exactly `n` bytes.  `b.val` is the slice `b[:]`. -/
abbrev FixedBytes (n : Nat) : Type := { b : List Nat // b.length = n }

/-- `types.RegisterValidatorRequestMessage`.  `FeeRecipient` is a `types.Address`
(`[20]byte`) and `Pubkey` a `types.PublicKey` (`[48]byte`). -/
structure RegisterValidatorRequestMessage where
  FeeRecipient : FixedBytes 20
  GasLimit : Nat
  Timestamp : Nat
  Pubkey : FixedBytes 48
  deriving DecidableEq, Repr

/-- `types.SignedValidatorRegistration`; `Message` is a pointer and may be `nil`,
`Signature` is a `types.Signature` (`[96]byte`). -/
structure SignedValidatorRegistration where
  Message : Option RegisterValidatorRequestMessage
  Signature : FixedBytes 96
  deriving DecidableEq, Repr

/-- `BuilderGetValidatorsResponseEntry`: a slot and a pointer to the registration of the
proposer of that slot. -/
structure BuilderGetValidatorsResponseEntry where
  Slot : Nat
  Entry : Option SignedValidatorRegistration
  deriving DecidableEq, Repr

/-- `beaconclient.ProposerDutiesResponseData`: one duty. -/
structure ProposerDutiesResponseData where
  Pubkey : String
  Slot : Nat
  deriving DecidableEq, Repr

/-- Calls made on the beacon client and the proposer datastore. -/
inductive Call where
  | GetProposerDuties (epoch : Nat) : Call
  | GetValidatorRegistration (pubkey : String) : Call
  | IsKnownValidator (pubkey : String) : Call
  | GetValidatorRegistrationTimestamp (pubkey : String) : Call
  | SetValidatorRegistration (registration : SignedValidatorRegistration) : Call
  deriving DecidableEq, Repr

/-- The functions of package `types` the code calls: `PublicKey.PubkeyHex()`,
`PublicKey.String()`, `NewPubkeyHex` and `VerifySignature` (which takes the message, the
domain and the key and signature as slices and returns `(ok, err)`). -/
structure TypesLib where
  PubkeyHex : FixedBytes 48 → String
  PubkeyString : FixedBytes 48 → String
  NewPubkeyHex : String → String
  VerifySignature :
    RegisterValidatorRequestMessage → List Nat → List Nat → List Nat → Bool × Option GoError

/-- The methods of `datastore.ProposerDatastore` the code calls, over a backend state `σ`.
A Go result pair `(value, err)` is a pair. -/
structure ProposerDatastore (σ : Type) where
  IsKnownValidator : σ → String → Bool
  GetValidatorRegistration : σ → String → Option SignedValidatorRegistration × Option GoError
  GetValidatorRegistrationTimestamp : σ → String → Nat × Option GoError
  SetValidatorRegistration : σ → SignedValidatorRegistration → Option GoError × σ

/-- The method of `beaconclient.BeaconNodeClient` used by `updateProposerDuties`; the result
is the `Data` field of the response, or the error. -/
structure BeaconNodeClient where
  GetProposerDuties : Nat → Except GoError (List ProposerDutiesResponseData)

/-- The fields of `RelayAPI` the embedded methods use. -/
structure RelayAPI (σ : Type) where
  datastore : ProposerDatastore σ
  beaconClient : BeaconNodeClient
  builderSigningDomain : List Nat
  proposerDutiesEpoch : Nat
  proposerDutiesResponse : List BuilderGetValidatorsResponseEntry

/-! ## `RelayAPI.updateProposerDuties` -/

/-- The local type `result` of `updateProposerDuties`. -/
structure result where
  val : BuilderGetValidatorsResponseEntry
  err : Option GoError
  deriving DecidableEq, Repr

/-- How a call ends: it returns an error value (`none` is `nil`) or it panics. -/
inductive Outcome where
  | returned (err : Option GoError) : Outcome
  | panicked (msg : String) : Outcome
  deriving DecidableEq, Repr

/-- The body of the goroutine started for one duty: look the registration up and build
the value sent on the channel. -/
def lookupDuty {σ : Type} (lib : TypesLib) (api : RelayAPI σ) (st : σ)
    (duty : ProposerDutiesResponseData) : result :=
  let r := api.datastore.GetValidatorRegistration st (lib.NewPubkeyHex duty.Pubkey)
  ⟨⟨duty.Slot, r.1⟩, r.2⟩

/-- The scatter loop.  One goroutine per duty sends its result on the buffered channel `c`;
`order` lists the indices of the duties in the order in which their goroutines send (a
permutation of `0 .. len(r.Data)-1`).  The value is the sequence of results the channel
delivers. -/
def scatter {σ : Type} (lib : TypesLib) (api : RelayAPI σ) (st : σ)
    (data : List ProposerDutiesResponseData) (order : List Nat) : List result :=
  (order.filterMap (fun j => data[j]?)).map (lookupDuty lib api st)

/-- The gather loop `for i := 0; i < cap(c); i++ { res := <-c; ... }`, as a traversal of
the sequence of results received: the `i`-th result received is stored at index `i`, and
the first result carrying an error ends the function with that error. -/
def gather : List result → Nat → List BuilderGetValidatorsResponseEntry →
    Except GoError (List BuilderGetValidatorsResponseEntry)
  | [], _, proposerDutiesResponse => .ok proposerDutiesResponse
  | res :: c, i, proposerDutiesResponse =>
    match res.err with
    | some err => .error err
    | none => gather c (i + 1) (proposerDutiesResponse.set i res.val)

/-- Go slice indexing `s[i]` with an `int` index: `none` stands for the run-time panic
"index out of range". -/
def goIndex {α : Type} (s : List α) (i : Int) : Option α :=
  if 0 ≤ i ∧ i < (s.length : Int) then s[i.toNat]? else none

/-- What `updateProposerDuties` leaves behind: the `RelayAPI` fields, how the call ended and
the calls made. -/
structure UpdateResult (σ : Type) where
  api : RelayAPI σ
  outcome : Outcome
  calls : List Call

/-- `RelayAPI.updateProposerDuties`.  `order` is the order in which the lookups complete. -/
def updateProposerDuties {σ : Type} (lib : TypesLib) (api : RelayAPI σ) (st : σ)
    (order : List Nat) (epoch : Nat) : UpdateResult σ :=
  if epoch = api.proposerDutiesEpoch then
    ⟨api, .returned none, []⟩
  else
    match api.beaconClient.GetProposerDuties epoch with
    | .error err => ⟨api, .returned (some err), [.GetProposerDuties epoch]⟩
    | .ok data =>
      let c := scatter lib api st data order
      let calls := Call.GetProposerDuties epoch ::
        (order.filterMap (fun j => data[j]?)).map
          (fun duty => Call.GetValidatorRegistration (lib.NewPubkeyHex duty.Pubkey))
      match gather c 0 (List.replicate data.length ⟨0, none⟩) with
      | .error err => ⟨api, .returned (some err), calls⟩
      | .ok proposerDutiesResponse =>
        let api' : RelayAPI σ :=
          { api with
            proposerDutiesEpoch := epoch
            proposerDutiesResponse := proposerDutiesResponse }
        -- the arguments of the final log line
        match goIndex proposerDutiesResponse 0,
            goIndex proposerDutiesResponse ((proposerDutiesResponse.length : Int) - 1) with
        | some _, some _ => ⟨api', .returned none, calls⟩
        | _, _ => ⟨api', .panicked "index out of range", calls⟩

/-! ## `RelayAPI.handleRegisterValidator` -/

/-- The variables of the handler that change while the batch is processed, with the
datastore state and the calls made so far. -/
structure HandlerState (σ : Type) where
  backend : σ
  numUpdated : Nat
  lastChangedPubkey : String
  calls : List Call

/-- One iteration of the loop `for _, registration := range payload`.  The two length
checks are those of the source; on arrays of fixed size they never fire. -/
def registerOne {σ : Type} (lib : TypesLib) (api : RelayAPI σ) (s : HandlerState σ)
    (registration : SignedValidatorRegistration) : HandlerState σ :=
  match registration.Message with
  | none => s
  | some message =>
    if message.Pubkey.val.length ≠ 48 then s
    else if registration.Signature.val.length ≠ 96 then s
    else
      let pubkeyHex := lib.PubkeyHex message.Pubkey
      let isKnownValidator := api.datastore.IsKnownValidator s.backend pubkeyHex
      let s₁ := { s with calls := s.calls ++ [.IsKnownValidator pubkeyHex] }
      if !isKnownValidator then s₁
      else
        let prevTimestamp := (api.datastore.GetValidatorRegistrationTimestamp s.backend pubkeyHex).1
        let s₂ := { s₁ with calls := s₁.calls ++ [.GetValidatorRegistrationTimestamp pubkeyHex] }
        if prevTimestamp ≥ message.Timestamp then s₂
        else
          let v := lib.VerifySignature message api.builderSigningDomain message.Pubkey.val
            registration.Signature.val
          if v.2.isSome || !v.1 then s₂
          else
            let w := api.datastore.SetValidatorRegistration s.backend registration
            let s₃ := { s₂ with
              backend := w.2
              calls := s₂.calls ++ [.SetValidatorRegistration registration] }
            if w.1.isSome then s₃
            else { s₃ with
              numUpdated := s₃.numUpdated + 1
              lastChangedPubkey := lib.PubkeyString message.Pubkey }

/-- The whole loop over the decoded payload, from `numUpdated := 0` and
`lastChangedPubkey := ""`. -/
def registerLoop {σ : Type} (lib : TypesLib) (api : RelayAPI σ) (st : σ)
    (payload : List SignedValidatorRegistration) : HandlerState σ :=
  payload.foldl (registerOne lib api) ⟨st, 0, "", []⟩

/-- The value an HTTP response carries as its JSON body: an `HTTPErrorResp`, or
`NilResponse`, the empty struct `struct{}{}`, whose JSON encoding is the empty object. -/
inductive ResponseBody where
  | HTTPErrorResp (code : Nat) (message : String) : ResponseBody
  | NilResponse : ResponseBody
  deriving DecidableEq, Repr

/-- An HTTP response: status code and JSON body. -/
structure HTTPResponse where
  code : Nat
  body : ResponseBody
  deriving DecidableEq, Repr

/-- `RelayAPI.RespondError`. -/
def RespondError (code : Nat) (message : String) : HTTPResponse :=
  ⟨code, .HTTPErrorResp code message⟩

/-- `RelayAPI.RespondOKEmpty`: `RespondOK(w, NilResponse)`, status `http.StatusOK`. -/
def RespondOKEmpty : HTTPResponse := ⟨200, .NilResponse⟩

/-- What `handleRegisterValidator` does: the response written, the datastore state after
the call, the values logged at the end and the datastore calls made. -/
structure HandlerResult (σ : Type) where
  response : HTTPResponse
  backend : σ
  numUpdated : Nat
  lastChangedPubkey : String
  calls : List Call

/-- `RelayAPI.handleRegisterValidator`.  `body` is the outcome of
`json.NewDecoder(req.Body).Decode(&payload)`: the decoded batch, or the text of the decoding
error. -/
def handleRegisterValidator {σ : Type} (lib : TypesLib) (api : RelayAPI σ) (st : σ)
    (body : Except String (List SignedValidatorRegistration)) : HandlerResult σ :=
  match body with
  | .error msg => ⟨RespondError 400 msg, st, 0, "", []⟩
  | .ok payload =>
    let s := registerLoop lib api st payload
    ⟨RespondOKEmpty, s.backend, s.numUpdated, s.lastChangedPubkey, s.calls⟩

/-! ### The request body

The handler decodes the body into `[]types.SignedValidatorRegistration`.  The key, the
signature and the fee recipient of an entry are arrays of fixed size, so the length of the
byte strings sent is checked while decoding. -/

/-- The `message` object of an entry of the request body, as sent: the byte strings have
whatever length the sender chose. -/
structure RawRegisterValidatorRequestMessage where
  fee_recipient : List Nat
  gas_limit : Nat
  timestamp : Nat
  pubkey : List Nat
  deriving DecidableEq, Repr

/-- An entry of the request body, as sent; `message` may be `null`. -/
structure RawSignedValidatorRegistration where
  message : Option RawRegisterValidatorRequestMessage
  signature : List Nat
  deriving DecidableEq, Repr

/-- Decoding a byte string into a Go array `[n]byte`: a string of another length is a
decoding error. -/
def decodeFixed (n : Nat) (b : List Nat) : Except String (FixedBytes n) :=
  if h : b.length = n then .ok ⟨b, h⟩ else .error "incorrect byte length"

/-- Decoding one entry of the body into a `types.SignedValidatorRegistration`. -/
def decodeRegistration (raw : RawSignedValidatorRegistration) :
    Except String SignedValidatorRegistration :=
  match decodeFixed 96 raw.signature with
  | .error e => .error e
  | .ok signature =>
    match raw.message with
    | none => .ok ⟨none, signature⟩
    | some m =>
      match decodeFixed 20 m.fee_recipient, decodeFixed 48 m.pubkey with
      | .ok feeRecipient, .ok pubkey =>
        .ok ⟨some ⟨feeRecipient, m.gas_limit, m.timestamp, pubkey⟩, signature⟩
      | .error e, _ => .error e
      | _, .error e => .error e

/-- `json.NewDecoder(req.Body).Decode(&payload)` on a body that is a JSON array of
entries: the decoded batch, or the error of the first entry that does not decode. -/
def Decode : List RawSignedValidatorRegistration →
    Except String (List SignedValidatorRegistration)
  | [] => .ok []
  | raw :: rest =>
    match decodeRegistration raw with
    | .error e => .error e
    | .ok registration =>
      match Decode rest with
      | .error e => .error e
      | .ok payload => .ok (registration :: payload)

/-- The structural checks of the spec, step 1 of the validation sequence, on an entry as
sent: the entry fails them when its message is missing, its public key is not 48 bytes
long or its signature is not 96 bytes long. -/
def RawSignedValidatorRegistration.failsStructuralValidation
    (raw : RawSignedValidatorRegistration) : Bool :=
  match raw.message with
  | none => true
  | some m => m.pubkey.length != 48 || raw.signature.length != 96

/-- The `SetValidatorRegistration` calls of a trace, in order: the registrations written. -/
def writesOf : List Call → List SignedValidatorRegistration
  | [] => []
  | .SetValidatorRegistration registration :: calls => registration :: writesOf calls
  | _ :: calls => writesOf calls

/-! ## A datastore in memory -/

/-- The state of the in-memory datastore: the known-validator set and the registrations
written, most recent first, each under the `PubkeyHex` of its public key. -/
structure MemStore where
  known : List String
  registrations : List (String × SignedValidatorRegistration)
  deriving DecidableEq, Repr

/-- The registration on file for a key: the most recent one written under it. -/
def MemStore.lookup (st : MemStore) (pubkeyHex : String) : Option SignedValidatorRegistration :=
  (st.registrations.find? (fun e => decide (e.1 = pubkeyHex))).map (fun e => e.2)

/-- Modelled from the spec: the ValidatorRegistry, a `datastore.ProposerDatastore` whose
implementation is outside the files at hand.  Writes succeed and replace the registration
of the key; the timestamp read returns the timestamp of the registration on file for the
key, and `0` when there is none. -/
def memDatastore (lib : TypesLib) : ProposerDatastore MemStore where
  IsKnownValidator := fun st pubkeyHex => decide (pubkeyHex ∈ st.known)
  GetValidatorRegistration := fun st pubkeyHex => (st.lookup pubkeyHex, none)
  GetValidatorRegistrationTimestamp := fun st pubkeyHex =>
    match st.lookup pubkeyHex with
    | some ⟨some message, _⟩ => (message.Timestamp, none)
    | _ => (0, none)
  SetValidatorRegistration := fun st registration =>
    match registration.Message with
    | some message =>
      (none, { st with
        registrations := (lib.PubkeyHex message.Pubkey, registration) :: st.registrations })
    | none => (some (.other "registration without message"), st)

/-- The datastore behaviour the freshness property is stated for: a write of a registration
succeeds, after it the registration read and the timestamp read for the key of the
registration return that registration and its timestamp, and the known-validator set is
not affected by the write. -/
def LastWriteWins {σ : Type} (lib : TypesLib) (ds : ProposerDatastore σ) : Prop :=
  ∀ (s : σ) (registration : SignedValidatorRegistration)
    (message : RegisterValidatorRequestMessage), registration.Message = some message →
    (ds.SetValidatorRegistration s registration).1 = none ∧
    ds.GetValidatorRegistration (ds.SetValidatorRegistration s registration).2
      (lib.PubkeyHex message.Pubkey) = (some registration, none) ∧
    (ds.GetValidatorRegistrationTimestamp (ds.SetValidatorRegistration s registration).2
      (lib.PubkeyHex message.Pubkey)).1 = message.Timestamp ∧
    ∀ key, ds.IsKnownValidator (ds.SetValidatorRegistration s registration).2 key =
      ds.IsKnownValidator s key

/-! ## Sample inputs -/

/-- A small instance of the library functions, for evaluating the definitions: keys are
printed digit by digit, `NewPubkeyHex` keeps its argument, and a signature verifies when
it is 96 bytes of value `7`. -/
def sampleLib : TypesLib where
  PubkeyHex := fun b => String.mk (b.val.map Nat.digitChar)
  PubkeyString := fun b => String.mk (b.val.map Nat.digitChar)
  NewPubkeyHex := fun s => s
  VerifySignature := fun _ _ _ sig => (decide (sig = List.replicate 96 7), none)

/-- A relay over the in-memory datastore whose beacon client answers every epoch with the
duty list `duties`; the stored epoch is `0` and the stored snapshot is empty. -/
def sampleAPI (duties : List ProposerDutiesResponseData) : RelayAPI MemStore where
  datastore := memDatastore sampleLib
  beaconClient := ⟨fun _ => .ok duties⟩
  builderSigningDomain := []
  proposerDutiesEpoch := 0
  proposerDutiesResponse := []

/-- A relay whose beacon client fails for every epoch. -/
def failingBeaconAPI : RelayAPI MemStore where
  datastore := memDatastore sampleLib
  beaconClient := ⟨fun _ => .error (.other "beacon node unreachable")⟩
  builderSigningDomain := []
  proposerDutiesEpoch := 0
  proposerDutiesResponse := []

/-- A relay over a datastore whose registration lookup fails for the key `"pkB"`. -/
def failingLookupAPI (duties : List ProposerDutiesResponseData) : RelayAPI MemStore where
  datastore :=
    { memDatastore sampleLib with
      GetValidatorRegistration := fun st pubkeyHex =>
        if pubkeyHex = "pkB" then (none, some (.other "redis: connection refused"))
        else (st.lookup pubkeyHex, none) }
  beaconClient := ⟨fun _ => .ok duties⟩
  builderSigningDomain := []
  proposerDutiesEpoch := 0
  proposerDutiesResponse := []

/-- The duties of the order-preservation example of the spec. -/
def sampleDuties : List ProposerDutiesResponseData :=
  [⟨"pkA", 10⟩, ⟨"pkB", 11⟩, ⟨"pkC", 12⟩]

/-- The empty in-memory datastore. -/
def emptyStore : MemStore := ⟨[], []⟩

/-- A 48-byte public key. -/
def sampleKey : FixedBytes 48 := ⟨List.replicate 48 1, by decide⟩

/-- A registration for `sampleKey` with the given timestamp, carrying the signature that
`sampleLib` accepts. -/
def sampleRegistration (timestamp : Nat) : SignedValidatorRegistration :=
  ⟨some ⟨⟨List.replicate 20 0, by decide⟩, 30000000, timestamp, sampleKey⟩,
    ⟨List.replicate 96 7, by decide⟩⟩

/-- An in-memory datastore in which `sampleKey` is a known validator and no registration
is on file. -/
def knownStore : MemStore := ⟨[sampleLib.PubkeyHex sampleKey], []⟩

/-- An in-memory datastore in which `sampleKey` is a known validator and a registration
with timestamp `500` is on file for it. -/
def newerStore : MemStore :=
  ⟨[sampleLib.PubkeyHex sampleKey], [(sampleLib.PubkeyHex sampleKey, sampleRegistration 500)]⟩

/-- The entry of a request body that decodes to `sampleRegistration timestamp`. -/
def sampleRaw (timestamp : Nat) : RawSignedValidatorRegistration :=
  ⟨some ⟨List.replicate 20 0, 30000000, timestamp, List.replicate 48 1⟩, List.replicate 96 7⟩

/-- An entry of a request body whose public key has 47 bytes. -/
def shortKeyRaw : RawSignedValidatorRegistration :=
  ⟨some ⟨List.replicate 20 0, 30000000, 7, List.replicate 47 1⟩, List.replicate 96 7⟩

/-- A codec for evaluation: payloads are their own serialisation. -/
def sampleCodec : PayloadCodec (List Nat) (List Nat) where
  Marshal := fun p => .ok p
  UnmarshalJSON := fun b => .ok b

/-! ## Decimal printing and the cache key -/

theorem toDigitsCore_eq (fuel : Nat) : ∀ (n : Nat) (ds : List Char), n < fuel → n ≠ 0 →
    Nat.toDigitsCore 10 fuel n ds = ((Nat.digits 10 n).reverse.map Nat.digitChar) ++ ds := by
  induction fuel with
  | zero => intro n ds h; omega
  | succ f ih =>
    intro n ds hlt hne
    have hd : Nat.digits 10 n = (n % 10) :: Nat.digits 10 (n / 10) :=
      Nat.digits_def' (by decide) (Nat.pos_of_ne_zero hne)
    by_cases hq : n / 10 = 0
    · simp [Nat.toDigitsCore, hq, hd]
    · have hlt' : n / 10 < f := by omega
      simp [Nat.toDigitsCore, hq, hd, ih (n / 10) _ hlt' hq]

theorem toDigits_eq (n : Nat) (hne : n ≠ 0) :
    Nat.toDigits 10 n = (Nat.digits 10 n).reverse.map Nat.digitChar := by
  simp [Nat.toDigits, toDigitsCore_eq (n + 1) n [] (by omega) hne]

theorem charDigit_digitChar (d : Nat) (h : d < 10) : charDigit (Nat.digitChar d) = d := by
  interval_cases d <;> decide

theorem digitChar_ne (d : Nat) (h : d < 10) : Nat.digitChar d ≠ '_' ∧ Nat.digitChar d ≠ ':' := by
  interval_cases d <;> decide

theorem map_charDigit_toDigits (n : Nat) (hne : n ≠ 0) :
    (Nat.toDigits 10 n).map charDigit = (Nat.digits 10 n).reverse := by
  rw [toDigits_eq n hne, List.map_map]
  conv_rhs => rw [← List.map_id (Nat.digits 10 n).reverse]
  apply List.map_congr_left
  intro d hd
  have : d < 10 := Nat.digits_lt_base (by decide) (List.mem_reverse.mp hd)
  simp [charDigit_digitChar d this]

theorem toDigits_injective (n m : Nat) (h : Nat.toDigits 10 n = Nat.toDigits 10 m) : n = m := by
  by_cases hn : n = 0
  · by_cases hm : m = 0
    · omega
    · exfalso
      subst hn
      have h2 := map_charDigit_toDigits m hm
      rw [← h] at h2
      have h3 : Nat.digits 10 m = [0] := by
        have := congrArg List.reverse h2
        simpa [Nat.toDigits, Nat.toDigitsCore, charDigit] using this.symm
      have := Nat.getLast_digit_ne_zero 10 hm
      simp [h3] at this
  · by_cases hm : m = 0
    · exfalso
      subst hm
      have h2 := map_charDigit_toDigits n hn
      rw [h] at h2
      have h3 : Nat.digits 10 n = [0] := by
        have := congrArg List.reverse h2
        simpa [Nat.toDigits, Nat.toDigitsCore, charDigit] using this.symm
      have := Nat.getLast_digit_ne_zero 10 hn
      simp [h3] at this
    · have h1 := map_charDigit_toDigits n hn
      have h2 := map_charDigit_toDigits m hm
      rw [h, h2] at h1
      have := List.reverse_injective h1
      exact ((Nat.digits_inj_iff).mp this).symm

theorem toDigits_no_sep (n : Nat) : '_' ∉ Nat.toDigits 10 n ∧ ':' ∉ Nat.toDigits 10 n := by
  by_cases hn : n = 0
  · subst hn; decide
  · rw [toDigits_eq n hn]
    constructor <;>
    · intro hmem
      obtain ⟨d, hd, hc⟩ := List.mem_map.mp hmem
      have : d < 10 := Nat.digits_lt_base (by decide) (List.mem_reverse.mp hd)
      have := digitChar_ne d this
      simp_all

theorem append_sep_inj {c : Char} {x₁ x₂ z₁ z₂ : List Char} (h₁ : c ∉ z₁) (h₂ : c ∉ z₂)
    (h : x₁ ++ c :: z₁ = x₂ ++ c :: z₂) : x₁ = x₂ ∧ z₁ = z₂ := by
  rcases List.append_eq_append_iff.mp h with ⟨a, hx, hz⟩ | ⟨a, hx, hz⟩
  · cases a with
    | nil => simp_all
    | cons b t =>
      exfalso
      simp only [List.cons_append, List.cons.injEq] at hz
      exact h₁ (by rw [hz.2]; simp)
  · cases a with
    | nil => simp_all
    | cons b t =>
      exfalso
      simp only [List.cons_append, List.cons.injEq] at hz
      exact h₂ (by rw [hz.2]; simp)

theorem executionPayloadKey_data (p : String) (s : Nat) (k h : String) :
    (executionPayloadKey p s k h).data =
      (("boost-relay/".data ++ p.data ++ ":cache-getpayload-response".data ++
          ':' :: Nat.toDigits 10 s) ++ '_' :: k.data) ++ '_' :: h.data := by
  simp [executionPayloadKey, formatUint, String.data_append]

/-! ## `updateProposerDuties` -/

theorem gather_error (c : List result) :
    ∀ (i : Nat) (arr : List BuilderGetValidatorsResponseEntry),
      (∃ r ∈ c, r.err ≠ none) → ∃ e, gather c i arr = .error e := by
  induction c with
  | nil => intro i arr h; simp at h
  | cons r c ih =>
    intro i arr h
    cases hr : r.err with
    | some e => exact ⟨e, by simp [gather, hr]⟩
    | none =>
      have h' : ∃ r' ∈ c, r'.err ≠ none := by
        obtain ⟨r', hmem, hne⟩ := h
        rcases List.mem_cons.mp hmem with rfl | hmem'
        · exact absurd hr hne
        · exact ⟨r', hmem', hne⟩
      obtain ⟨e, he⟩ := ih (i + 1) (arr.set i r.val) h'
      exact ⟨e, by simp [gather, hr, he]⟩

theorem gather_ok (c : List result) :
    ∀ (pre rest : List BuilderGetValidatorsResponseEntry),
      (∀ r ∈ c, r.err = none) → rest.length = c.length →
      gather c pre.length (pre ++ rest) = .ok (pre ++ c.map (fun r => r.val)) := by
  induction c with
  | nil =>
    intro pre rest _ hlen
    have : rest = [] := List.length_eq_zero.mp (by simpa using hlen)
    simp [gather, this]
  | cons r c ih =>
    intro pre rest hall hlen
    cases rest with
    | nil => simp at hlen
    | cons x rest =>
      have hr : r.err = none := hall r (List.mem_cons_self _ _)
      have hset : (pre ++ x :: rest).set pre.length r.val = (pre ++ [r.val]) ++ rest := by
        simp [List.set_append]
      have := ih (pre ++ [r.val]) rest (fun r' h' => hall r' (List.mem_cons_of_mem _ h'))
        (by simpa using hlen)
      simp only [List.length_append, List.length_singleton, List.append_assoc,
        List.singleton_append] at this
      simp only [List.append_assoc, List.singleton_append] at hset
      simp [gather, hr, hset, this]

theorem mem_scatter_of_perm {σ : Type} (lib : TypesLib) (api : RelayAPI σ) (st : σ)
    (data : List ProposerDutiesResponseData) (order : List Nat)
    (hperm : order.Perm (List.range data.length)) (d : ProposerDutiesResponseData)
    (hd : d ∈ data) : lookupDuty lib api st d ∈ scatter lib api st data order := by
  obtain ⟨n, hn⟩ := List.mem_iff_getElem?.mp hd
  have hlt : n < data.length := by
    by_contra hge
    rw [List.getElem?_eq_none (by omega)] at hn
    exact absurd hn (by simp)
  have hmem : n ∈ order := hperm.mem_iff.mpr (List.mem_range.mpr hlt)
  exact List.mem_map.mpr ⟨d, List.mem_filterMap.mpr ⟨n, hmem, hn⟩, rfl⟩

theorem scatter_eq_map_of_range {σ : Type} (lib : TypesLib) (api : RelayAPI σ) (st : σ)
    (data : List ProposerDutiesResponseData) (order : List Nat)
    (hperm : order.Perm (List.range data.length)) :
    (scatter lib api st data order).length = data.length := by
  have h1 : ∀ (l : List Nat), (∀ j ∈ l, j < data.length) →
      (l.filterMap (fun j => data[j]?)).length = l.length := by
    intro l
    induction l with
    | nil => intro _; rfl
    | cons a l ih =>
      intro h
      have ha : a < data.length := h a (List.mem_cons_self _ _)
      have := ih (fun j hj => h j (List.mem_cons_of_mem _ hj))
      simp [List.filterMap_cons, List.getElem?_eq_getElem ha, this]
  have h2 : ∀ j ∈ order, j < data.length := fun j hj =>
    List.mem_range.mp (hperm.mem_iff.mp hj)
  simp [scatter, h1 order h2, hperm.length_eq]

/-- What the code publishes when every lookup succeeds: the entries in the order in which
the lookups completed. -/
theorem updateProposerDuties_publishes_completion_order {σ : Type} (lib : TypesLib)
    (api : RelayAPI σ) (st : σ) (order : List Nat) (epoch : Nat)
    (data : List ProposerDutiesResponseData)
    (hepoch : epoch ≠ api.proposerDutiesEpoch)
    (hdata : api.beaconClient.GetProposerDuties epoch = .ok data)
    (hperm : order.Perm (List.range data.length))
    (hok : ∀ d ∈ data,
      (api.datastore.GetValidatorRegistration st (lib.NewPubkeyHex d.Pubkey)).2 = none) :
    (updateProposerDuties lib api st order epoch).api.proposerDutiesResponse =
      (order.filterMap (fun j => data[j]?)).map (fun d =>
        (⟨d.Slot, (api.datastore.GetValidatorRegistration st (lib.NewPubkeyHex d.Pubkey)).1⟩ :
          BuilderGetValidatorsResponseEntry)) := by
  have hall : ∀ r ∈ scatter lib api st data order, r.err = none := by
    intro r hr
    obtain ⟨d, hd, rfl⟩ := List.mem_map.mp hr
    obtain ⟨j, _, hj⟩ := List.mem_filterMap.mp hd
    exact hok d (List.mem_iff_getElem?.mpr ⟨j, hj⟩)
  have hlen := scatter_eq_map_of_range lib api st data order hperm
  have hg := gather_ok (scatter lib api st data order) []
    (List.replicate data.length ⟨0, none⟩) hall (by simp [hlen])
  simp only [List.length_nil, List.nil_append] at hg
  simp only [updateProposerDuties, hepoch, hdata, hg, if_false]
  have hmap : (scatter lib api st data order).map (fun r => r.val) =
      (order.filterMap (fun j => data[j]?)).map (fun d =>
        (⟨d.Slot, (api.datastore.GetValidatorRegistration st (lib.NewPubkeyHex d.Pubkey)).1⟩ :
          BuilderGetValidatorsResponseEntry)) := by
    simp [scatter, lookupDuty, List.map_map, Function.comp_def]
  split <;> exact hmap

/-- For a non-empty duty list whose lookups all succeed, the two index expressions of the
final log line are in bounds and the call returns `nil` with the new epoch stored. -/
theorem updateProposerDuties_nonempty_returns {σ : Type} (lib : TypesLib)
    (api : RelayAPI σ) (st : σ) (order : List Nat) (epoch : Nat)
    (data : List ProposerDutiesResponseData)
    (hepoch : epoch ≠ api.proposerDutiesEpoch)
    (hdata : api.beaconClient.GetProposerDuties epoch = .ok data)
    (hperm : order.Perm (List.range data.length))
    (hok : ∀ d ∈ data,
      (api.datastore.GetValidatorRegistration st (lib.NewPubkeyHex d.Pubkey)).2 = none)
    (hne : data ≠ []) :
    (updateProposerDuties lib api st order epoch).outcome = .returned none ∧
      (updateProposerDuties lib api st order epoch).api.proposerDutiesEpoch = epoch := by
  have hall : ∀ r ∈ scatter lib api st data order, r.err = none := by
    intro r hr
    obtain ⟨d, hd, rfl⟩ := List.mem_map.mp hr
    obtain ⟨j, _, hj⟩ := List.mem_filterMap.mp hd
    exact hok d (List.mem_iff_getElem?.mpr ⟨j, hj⟩)
  have hlen := scatter_eq_map_of_range lib api st data order hperm
  have hg := gather_ok (scatter lib api st data order) []
    (List.replicate data.length ⟨0, none⟩) hall (by simp [hlen])
  simp only [List.length_nil, List.nil_append] at hg
  have hpos : 0 < data.length := List.length_pos.mpr hne
  have hl : ((scatter lib api st data order).map (fun r => r.val)).length = data.length := by
    simp [hlen]
  obtain ⟨a, ha⟩ : ∃ a, goIndex ((scatter lib api st data order).map (fun r => r.val)) 0
      = some a := by
    refine ⟨((scatter lib api st data order).map (fun r => r.val))[0], ?_⟩
    simp [goIndex, hl, hpos]
  obtain ⟨b, hb⟩ : ∃ b, goIndex ((scatter lib api st data order).map (fun r => r.val))
      ((((scatter lib api st data order).map (fun r => r.val)).length : Int) - 1) = some b := by
    have hidx : (((((scatter lib api st data order).map (fun r => r.val)).length : Int)
        - 1).toNat) < ((scatter lib api st data order).map (fun r => r.val)).length := by
      omega
    refine ⟨((scatter lib api st data order).map (fun r => r.val))[(((((scatter lib api st data
      order).map (fun r => r.val)).length : Int) - 1).toNat)], ?_⟩
    unfold goIndex
    rw [if_pos (by omega)]
    exact List.getElem?_eq_getElem hidx
  simp only [updateProposerDuties, hepoch, hdata, hg, if_false, ha, hb]
  simp

/-- C1 (fails on the code): with duties `[(10,pkA),(11,pkB),(12,pkC)]`, every lookup
succeeding and the lookups completing in the order B, C, A, `updateProposerDuties` returns
`nil` and publishes a snapshot whose slots are `[11, 12, 10]`: the entries are stored by
order of completion, not at the index of their duty. -/
theorem updateProposerDuties_snapshot_in_completion_order :
    (updateProposerDuties sampleLib (sampleAPI sampleDuties) emptyStore [1, 2, 0] 1).outcome
        = .returned none ∧
      (updateProposerDuties sampleLib (sampleAPI sampleDuties) emptyStore [1, 2, 0]
          1).api.proposerDutiesResponse.map (fun e => e.Slot) = [11, 12, 10] ∧
      sampleDuties.map (fun d => d.Slot) = [10, 11, 12] := by
  decide

/-- C4: for an epoch different from the stored one, if the beacon client returns a duty
list and the registry lookup of at least one duty returns an error, then, whatever the
order in which the lookups complete, `updateProposerDuties` returns an error and leaves
the `RelayAPI` fields (in particular `proposerDutiesEpoch` and `proposerDutiesResponse`)
as they were; the same holds when `GetProposerDuties` itself returns an error. -/
theorem updateProposerDuties_error_keeps_snapshot {σ : Type} (lib : TypesLib)
    (api : RelayAPI σ) (st : σ) (order : List Nat) (epoch : Nat)
    (hepoch : epoch ≠ api.proposerDutiesEpoch) :
    (∀ data, api.beaconClient.GetProposerDuties epoch = .ok data →
      order.Perm (List.range data.length) →
      (∃ d ∈ data,
        (api.datastore.GetValidatorRegistration st (lib.NewPubkeyHex d.Pubkey)).2 ≠ none) →
      (∃ e, (updateProposerDuties lib api st order epoch).outcome = .returned (some e)) ∧
        (updateProposerDuties lib api st order epoch).api = api) ∧
    (∀ e, api.beaconClient.GetProposerDuties epoch = .error e →
      (updateProposerDuties lib api st order epoch).outcome = .returned (some e) ∧
        (updateProposerDuties lib api st order epoch).api = api) := by
  constructor
  · intro data hdata hperm ⟨d, hd, herr⟩
    have hmem := mem_scatter_of_perm lib api st data order hperm d hd
    obtain ⟨e, he⟩ := gather_error (scatter lib api st data order) 0
      (List.replicate data.length ⟨0, none⟩) ⟨lookupDuty lib api st d, hmem, herr⟩
    simp [updateProposerDuties, hepoch, hdata, he]
  · intro e hdata
    simp [updateProposerDuties, hepoch, hdata]

theorem updateProposerDuties_error_keeps_snapshot_witness :
    (∃ e, (updateProposerDuties sampleLib (failingLookupAPI sampleDuties) emptyStore [1, 2, 0]
        1).outcome = .returned (some e)) ∧
      (updateProposerDuties sampleLib (failingLookupAPI sampleDuties) emptyStore [1, 2, 0]
        1).api = failingLookupAPI sampleDuties ∧
      (updateProposerDuties sampleLib failingBeaconAPI emptyStore [] 1).outcome =
        .returned (some (.other "beacon node unreachable")) :=
  ⟨((updateProposerDuties_error_keeps_snapshot sampleLib (failingLookupAPI sampleDuties)
      emptyStore [1, 2, 0] 1 (by decide)).1 sampleDuties rfl (by decide)
      ⟨⟨"pkB", 11⟩, by decide, by decide⟩).1,
   ((updateProposerDuties_error_keeps_snapshot sampleLib (failingLookupAPI sampleDuties)
      emptyStore [1, 2, 0] 1 (by decide)).1 sampleDuties rfl (by decide)
      ⟨⟨"pkB", 11⟩, by decide, by decide⟩).2,
   ((updateProposerDuties_error_keeps_snapshot sampleLib failingBeaconAPI emptyStore [] 1
      (by decide)).2 _ rfl).1⟩

/-- C5: called with the stored epoch, `updateProposerDuties` returns `nil`, makes no call to
the beacon client or the datastore and leaves the `RelayAPI` fields unchanged; calling it a
second time with the same epoch gives the state the first call gave. -/
theorem updateProposerDuties_same_epoch_noop {σ : Type} (lib : TypesLib) (api : RelayAPI σ)
    (st : σ) (order order' : List Nat) :
    (updateProposerDuties lib api st order api.proposerDutiesEpoch).outcome = .returned none ∧
      (updateProposerDuties lib api st order api.proposerDutiesEpoch).calls = [] ∧
      (updateProposerDuties lib api st order api.proposerDutiesEpoch).api = api ∧
      (updateProposerDuties lib
        (updateProposerDuties lib api st order api.proposerDutiesEpoch).api st order'
        api.proposerDutiesEpoch).api =
        (updateProposerDuties lib api st order api.proposerDutiesEpoch).api := by
  simp [updateProposerDuties]

/-- C10 (fails on the code): for a new epoch whose duty list is empty,
`updateProposerDuties` replaces the (epoch, snapshot) pair and then panics with an index
out of range at `proposerDutiesResponse[0]`. -/
theorem updateProposerDuties_empty_duties_panics :
    (updateProposerDuties sampleLib (sampleAPI []) emptyStore [] 1).outcome =
        .panicked "index out of range" ∧
      (updateProposerDuties sampleLib (sampleAPI []) emptyStore [] 1).api.proposerDutiesEpoch
        = 1 ∧
      (updateProposerDuties sampleLib (sampleAPI []) emptyStore []
        1).api.proposerDutiesResponse = [] := by
  decide

/-! ## `handleRegisterValidator` -/

theorem registerOne_of_nil_message {σ : Type} (lib : TypesLib) (api : RelayAPI σ)
    (s : HandlerState σ) (registration : SignedValidatorRegistration)
    (h : registration.Message = none) : registerOne lib api s registration = s := by
  unfold registerOne
  rw [h]

theorem registerLoop_eraseIdx {σ : Type} (lib : TypesLib) (api : RelayAPI σ) (st : σ)
    (payload : List SignedValidatorRegistration) (k : Nat) (hk : k < payload.length)
    (hbad : payload[k].Message = none) :
    registerLoop lib api st payload = registerLoop lib api st (payload.eraseIdx k) := by
  have hsplit : payload = payload.take k ++ payload[k] :: payload.drop (k + 1) := by
    rw [← List.drop_eq_getElem_cons hk, List.take_append_drop]
  have herase : payload.eraseIdx k = payload.take k ++ payload.drop (k + 1) :=
    List.eraseIdx_eq_take_drop_succ payload k
  rw [herase]
  conv_lhs => rw [hsplit]
  simp only [registerLoop, List.foldl_append, List.foldl_cons]
  rw [registerOne_of_nil_message lib api _ _ hbad]

theorem decodeRegistration_error_of_length (raw : RawSignedValidatorRegistration)
    (m : RawRegisterValidatorRequestMessage) (hm : raw.message = some m)
    (hlen : m.pubkey.length ≠ 48 ∨ raw.signature.length ≠ 96) :
    decodeRegistration raw = .error "incorrect byte length" := by
  unfold decodeRegistration
  by_cases hs : raw.signature.length = 96
  · have hp : m.pubkey.length ≠ 48 := by
      rcases hlen with h | h
      · exact h
      · exact absurd hs h
    by_cases hf : m.fee_recipient.length = 20 <;> simp [decodeFixed, hs, hm, hp, hf]
  · simp [decodeFixed, hs]

theorem decodeRegistration_error_message (raw : RawSignedValidatorRegistration) (e : String)
    (h : decodeRegistration raw = .error e) : e = "incorrect byte length" := by
  unfold decodeRegistration at h
  by_cases hs : raw.signature.length = 96
  · cases hm : raw.message with
    | none => simp [decodeFixed, hs, hm] at h
    | some m =>
      by_cases hf : m.fee_recipient.length = 20 <;> by_cases hp : m.pubkey.length = 48 <;>
        simp [decodeFixed, hs, hm, hf, hp] at h <;> exact h.symm
  · simp [decodeFixed, hs] at h
    exact h.symm

theorem Decode_error_of_length (batch : List RawSignedValidatorRegistration) :
    ∀ (k : Nat) (hk : k < batch.length) (m : RawRegisterValidatorRequestMessage),
      batch[k].message = some m → (m.pubkey.length ≠ 48 ∨ batch[k].signature.length ≠ 96) →
      Decode batch = .error "incorrect byte length" := by
  induction batch with
  | nil => intro k hk; simp at hk
  | cons raw rest ih =>
    intro k hk m hm hlen
    cases k with
    | zero =>
      simp only [List.getElem_cons_zero] at hm hlen
      simp [Decode, decodeRegistration_error_of_length raw m hm hlen]
    | succ k =>
      simp only [List.getElem_cons_succ] at hm hlen
      have hrest := ih k (by simpa using hk) m hm hlen
      cases hd : decodeRegistration raw with
      | error e => simp [Decode, hd, decodeRegistration_error_message raw e hd]
      | ok registration => simp [Decode, hd, hrest]

/-- An entry whose public key is not 48 bytes long or whose signature is not 96 bytes long
never reaches the loop: the body does not decode, and the handler answers 400 without a
datastore call. -/
theorem handleRegisterValidator_rejects_wrong_length {σ : Type} (lib : TypesLib)
    (api : RelayAPI σ) (st : σ) (batch : List RawSignedValidatorRegistration) (k : Nat)
    (hk : k < batch.length) (m : RawRegisterValidatorRequestMessage)
    (hm : batch[k].message = some m)
    (hlen : m.pubkey.length ≠ 48 ∨ batch[k].signature.length ≠ 96) :
    (handleRegisterValidator lib api st (Decode batch)).response =
        RespondError 400 "incorrect byte length" ∧
      (handleRegisterValidator lib api st (Decode batch)).calls = [] ∧
      (handleRegisterValidator lib api st (Decode batch)).backend = st ∧
      (handleRegisterValidator lib api st (Decode batch)).numUpdated = 0 := by
  rw [Decode_error_of_length batch k hk m hm hlen]
  exact ⟨rfl, rfl, rfl, rfl⟩

/-- C7 (as stated, fails on the code): an entry whose public key has 47 bytes fails
structural validation, but the batch that contains it is not processed like the batch
without it.  The key is an array of fixed size, so the body does not decode: the handler
answers 400 and writes nothing, while the batch without the entry is answered 200 and its
two registrations are written. -/
theorem handleRegisterValidator_wrong_length_not_skipped :
    ¬ ∀ (lib : TypesLib) (api : RelayAPI MemStore) (st : MemStore)
      (batch : List RawSignedValidatorRegistration) (k : Nat) (hk : k < batch.length),
      batch[k].failsStructuralValidation = true →
      writesOf (handleRegisterValidator lib api st (Decode batch)).calls =
          writesOf (handleRegisterValidator lib api st (Decode (batch.eraseIdx k))).calls ∧
        (handleRegisterValidator lib api st (Decode batch)).backend =
          (handleRegisterValidator lib api st (Decode (batch.eraseIdx k))).backend ∧
        (handleRegisterValidator lib api st (Decode batch)).numUpdated =
          (handleRegisterValidator lib api st (Decode (batch.eraseIdx k))).numUpdated ∧
        (handleRegisterValidator lib api st (Decode batch)).lastChangedPubkey =
          (handleRegisterValidator lib api st (Decode (batch.eraseIdx k))).lastChangedPubkey ∧
        (handleRegisterValidator lib api st (Decode batch)).response = ⟨200, .NilResponse⟩ ∧
        (handleRegisterValidator lib api st (Decode (batch.eraseIdx k))).response =
          ⟨200, .NilResponse⟩ := by
  intro h
  have h' := h sampleLib (sampleAPI []) knownStore [sampleRaw 5, shortKeyRaw, sampleRaw 9] 1
    (by decide) (by decide)
  exact absurd h'.2.2.1 (by decide)

/-- C7 (amended): if the `k`-th entry of a decoded batch has no message,
`handleRegisterValidator` makes the same datastore calls (in particular the same sequence
of writes), ends in the same datastore state and computes the same `numUpdated` and
`lastChangedPubkey` as on the batch without that entry, and in both cases the response is
200 with the empty JSON object. -/
theorem handleRegisterValidator_skips_malformed_entry {σ : Type} (lib : TypesLib)
    (api : RelayAPI σ) (st : σ) (payload : List SignedValidatorRegistration) (k : Nat)
    (hk : k < payload.length) (hbad : payload[k].Message = none) :
    writesOf (handleRegisterValidator lib api st (.ok payload)).calls =
        writesOf (handleRegisterValidator lib api st (.ok (payload.eraseIdx k))).calls ∧
      (handleRegisterValidator lib api st (.ok payload)).calls =
        (handleRegisterValidator lib api st (.ok (payload.eraseIdx k))).calls ∧
      (handleRegisterValidator lib api st (.ok payload)).backend =
        (handleRegisterValidator lib api st (.ok (payload.eraseIdx k))).backend ∧
      (handleRegisterValidator lib api st (.ok payload)).numUpdated =
        (handleRegisterValidator lib api st (.ok (payload.eraseIdx k))).numUpdated ∧
      (handleRegisterValidator lib api st (.ok payload)).lastChangedPubkey =
        (handleRegisterValidator lib api st (.ok (payload.eraseIdx k))).lastChangedPubkey ∧
      (handleRegisterValidator lib api st (.ok payload)).response = ⟨200, .NilResponse⟩ ∧
      (handleRegisterValidator lib api st (.ok (payload.eraseIdx k))).response =
        ⟨200, .NilResponse⟩ := by
  have h := registerLoop_eraseIdx lib api st payload k hk hbad
  simp only [handleRegisterValidator, h]
  refine ⟨trivial, trivial, trivial, trivial, trivial, ?_, ?_⟩ <;> rfl

theorem handleRegisterValidator_skips_malformed_entry_witness :
    writesOf (handleRegisterValidator sampleLib (sampleAPI []) knownStore
        (.ok [sampleRegistration 5, ⟨none, ⟨List.replicate 96 0, by decide⟩⟩,
          sampleRegistration 9])).calls =
      writesOf (handleRegisterValidator sampleLib (sampleAPI []) knownStore
        (.ok ([sampleRegistration 5, ⟨none, ⟨List.replicate 96 0, by decide⟩⟩,
          sampleRegistration 9].eraseIdx 1))).calls :=
  (handleRegisterValidator_skips_malformed_entry sampleLib (sampleAPI []) knownStore
    [sampleRegistration 5, ⟨none, ⟨List.replicate 96 0, by decide⟩⟩, sampleRegistration 9] 1
    (by decide) rfl).1

theorem registerOne_calls {σ : Type} (lib : TypesLib) (api : RelayAPI σ) (s : HandlerState σ)
    (registration : SignedValidatorRegistration) :
    ∃ new, (registerOne lib api s registration).calls = s.calls ++ new ∧
      ∀ r, Call.SetValidatorRegistration r ∈ new →
        r = registration ∧ ∃ message, registration.Message = some message ∧
          api.datastore.IsKnownValidator s.backend (lib.PubkeyHex message.Pubkey) = true ∧
          lib.VerifySignature message api.builderSigningDomain message.Pubkey.val
            registration.Signature.val = (true, none) := by
  unfold registerOne
  cases hm : registration.Message with
  | none => exact ⟨[], by simp⟩
  | some message =>
    simp only
    have hp : message.Pubkey.val.length = 48 := message.Pubkey.property
    have hs : registration.Signature.val.length = 96 := registration.Signature.property
    cases hk : api.datastore.IsKnownValidator s.backend (lib.PubkeyHex message.Pubkey) with
    | false => exact ⟨[.IsKnownValidator (lib.PubkeyHex message.Pubkey)], by simp [hp, hs, hk]⟩
    | true =>
      by_cases ht : (api.datastore.GetValidatorRegistrationTimestamp s.backend
          (lib.PubkeyHex message.Pubkey)).1 ≥ message.Timestamp
      · exact ⟨[.IsKnownValidator (lib.PubkeyHex message.Pubkey),
          .GetValidatorRegistrationTimestamp (lib.PubkeyHex message.Pubkey)],
          by simp [hp, hs, hk, ht]⟩
      · by_cases hv : lib.VerifySignature message api.builderSigningDomain message.Pubkey.val
            registration.Signature.val = (true, none)
        · refine ⟨[.IsKnownValidator (lib.PubkeyHex message.Pubkey),
            .GetValidatorRegistrationTimestamp (lib.PubkeyHex message.Pubkey),
            .SetValidatorRegistration registration], ?_, ?_⟩
          · simp only [hp, hs, hk, ht, hv]
            simp only [ne_eq, not_true_eq_false, if_false, Bool.not_true, Bool.false_eq_true,
              Option.isSome_none, Bool.or_self]
            split <;> simp
          · intro r hr
            simp at hr
            exact ⟨hr, message, rfl, hk, hv⟩
        · refine ⟨[.IsKnownValidator (lib.PubkeyHex message.Pubkey),
            .GetValidatorRegistrationTimestamp (lib.PubkeyHex message.Pubkey)], ?_, by simp⟩
          have hv' : ((lib.VerifySignature message api.builderSigningDomain message.Pubkey.val
              registration.Signature.val).2.isSome ||
              !(lib.VerifySignature message api.builderSigningDomain message.Pubkey.val
              registration.Signature.val).1) = true := by
            rcases hvv : lib.VerifySignature message api.builderSigningDomain message.Pubkey.val
              registration.Signature.val with ⟨ok, err⟩
            rw [hvv] at hv
            cases ok <;> cases err <;> simp_all
          simp [hp, hs, hk, ht, hv']

theorem foldl_registerOne_set {σ : Type} (lib : TypesLib) (api : RelayAPI σ)
    (payload : List SignedValidatorRegistration) :
    ∀ (s : HandlerState σ) (r : SignedValidatorRegistration),
      Call.SetValidatorRegistration r ∈ (payload.foldl (registerOne lib api) s).calls →
      Call.SetValidatorRegistration r ∈ s.calls ∨
        ∃ message pre post, r.Message = some message ∧ payload = pre ++ r :: post ∧
          api.datastore.IsKnownValidator (pre.foldl (registerOne lib api) s).backend
            (lib.PubkeyHex message.Pubkey) = true ∧
          lib.VerifySignature message api.builderSigningDomain message.Pubkey.val
            r.Signature.val
            = (true, none) := by
  induction payload with
  | nil => intro s r h; exact Or.inl h
  | cons x xs ih =>
    intro s r h
    rw [List.foldl_cons] at h
    rcases ih (registerOne lib api s x) r h with h1 | ⟨message, pre, post, hm, hxs, hk, hv⟩
    · obtain ⟨new, hnew, hprop⟩ := registerOne_calls lib api s x
      rw [hnew] at h1
      rcases List.mem_append.mp h1 with h2 | h2
      · exact Or.inl h2
      · obtain ⟨hrx, message, hm, hk, hv⟩ := hprop r h2
        subst hrx
        exact Or.inr ⟨message, [], xs, hm, rfl, hk, hv⟩
    · exact Or.inr ⟨message, x :: pre, post, hm, by simp [hxs], hk, hv⟩

/-- C3: `handleRegisterValidator` calls `SetValidatorRegistration` for a registration only
if the registration is an entry of the batch that has a message, whose public key the
datastore reported as a known validator (in the datastore state reached when the entry was
processed) and whose signature `VerifySignature` accepted for its message and public key
under the builder signing domain.  In particular a registration whose signature does not
verify is never written, and neither is a registration for a key the datastore does not
report as known. -/
theorem handleRegisterValidator_writes_only_known_verified {σ : Type} (lib : TypesLib)
    (api : RelayAPI σ) (st : σ) (payload : List SignedValidatorRegistration) :
    (∀ registration,
      Call.SetValidatorRegistration registration ∈
        (handleRegisterValidator lib api st (.ok payload)).calls →
      ∃ message pre post, registration.Message = some message ∧
        payload = pre ++ registration :: post ∧
        api.datastore.IsKnownValidator (registerLoop lib api st pre).backend
          (lib.PubkeyHex message.Pubkey) = true ∧
        lib.VerifySignature message api.builderSigningDomain message.Pubkey.val
          registration.Signature.val = (true, none)) ∧
    (∀ registration message, registration.Message = some message →
      lib.VerifySignature message api.builderSigningDomain message.Pubkey.val
        registration.Signature.val ≠ (true, none) →
      Call.SetValidatorRegistration registration ∉
        (handleRegisterValidator lib api st (.ok payload)).calls) ∧
    (∀ registration message, registration.Message = some message →
      (∀ s, api.datastore.IsKnownValidator s (lib.PubkeyHex message.Pubkey) = false) →
      Call.SetValidatorRegistration registration ∉
        (handleRegisterValidator lib api st (.ok payload)).calls) := by
  have main : ∀ registration,
      Call.SetValidatorRegistration registration ∈
        (handleRegisterValidator lib api st (.ok payload)).calls →
      ∃ message pre post, registration.Message = some message ∧
        payload = pre ++ registration :: post ∧
        api.datastore.IsKnownValidator (registerLoop lib api st pre).backend
          (lib.PubkeyHex message.Pubkey) = true ∧
        lib.VerifySignature message api.builderSigningDomain message.Pubkey.val
          registration.Signature.val = (true, none) := by
    intro registration h
    rcases foldl_registerOne_set lib api payload ⟨st, 0, "", []⟩ registration h with h1 | h1
    · simp at h1
    · exact h1
  refine ⟨main, ?_, ?_⟩
  · intro registration message hm hv hcall
    obtain ⟨message', _, _, hm', _, _, hv'⟩ := main registration hcall
    rw [hm] at hm'
    cases hm'
    exact hv hv'
  · intro registration message hm hk hcall
    obtain ⟨message', pre, _, hm', _, hk', _⟩ := main registration hcall
    rw [hm] at hm'
    cases hm'
    rw [hk] at hk'
    exact absurd hk' (by simp)

theorem handleRegisterValidator_writes_only_known_verified_witness :
    Call.SetValidatorRegistration (sampleRegistration 5) ∈
        (handleRegisterValidator sampleLib (sampleAPI []) knownStore
          (.ok [sampleRegistration 5])).calls ∧
      ∃ message pre post, (sampleRegistration 5).Message = some message ∧
        [sampleRegistration 5] = pre ++ sampleRegistration 5 :: post ∧
        (sampleAPI []).datastore.IsKnownValidator
          (registerLoop sampleLib (sampleAPI []) knownStore pre).backend
          (sampleLib.PubkeyHex message.Pubkey) = true ∧
        sampleLib.VerifySignature message (sampleAPI []).builderSigningDomain
          message.Pubkey.val (sampleRegistration 5).Signature.val = (true, none) :=
  ⟨by decide,
   (handleRegisterValidator_writes_only_known_verified sampleLib (sampleAPI []) knownStore
      [sampleRegistration 5]).1 (sampleRegistration 5) (by decide)⟩

/-! ## Freshness -/

theorem writesOf_append (a b : List Call) : writesOf (a ++ b) = writesOf a ++ writesOf b := by
  induction a with
  | nil => rfl
  | cons c a ih => cases c <;> simp [writesOf, ih]

theorem memDatastore_lastWriteWins (lib : TypesLib) : LastWriteWins lib (memDatastore lib) := by
  intro s registration message hm
  obtain ⟨msg, sig⟩ := registration
  simp only at hm
  subst hm
  simp [memDatastore, MemStore.lookup]

theorem registerOne_store {σ : Type} (lib : TypesLib) (api : RelayAPI σ)
    (hds : LastWriteWins lib api.datastore) (s : HandlerState σ)
    (message : RegisterValidatorRequestMessage) (sig : FixedBytes 96)
    (hk : api.datastore.IsKnownValidator s.backend (lib.PubkeyHex message.Pubkey) = true)
    (ht : (api.datastore.GetValidatorRegistrationTimestamp s.backend
      (lib.PubkeyHex message.Pubkey)).1 < message.Timestamp)
    (hv : lib.VerifySignature message api.builderSigningDomain message.Pubkey.val sig.val
      = (true, none)) :
    registerOne lib api s ⟨some message, sig⟩ =
      ⟨(api.datastore.SetValidatorRegistration s.backend ⟨some message, sig⟩).2,
        s.numUpdated + 1, lib.PubkeyString message.Pubkey,
        s.calls ++ [.IsKnownValidator (lib.PubkeyHex message.Pubkey),
          .GetValidatorRegistrationTimestamp (lib.PubkeyHex message.Pubkey),
          .SetValidatorRegistration ⟨some message, sig⟩]⟩ := by
  have ht' : ¬ (api.datastore.GetValidatorRegistrationTimestamp s.backend
      (lib.PubkeyHex message.Pubkey)).1 ≥ message.Timestamp := by omega
  have hset := (hds s.backend ⟨some message, sig⟩ message rfl).1
  simp [registerOne, message.Pubkey.property, sig.property, hk, ht', hv, hset]

theorem registerOne_stale {σ : Type} (lib : TypesLib) (api : RelayAPI σ)
    (s : HandlerState σ) (message : RegisterValidatorRequestMessage) (sig : FixedBytes 96)
    (hk : api.datastore.IsKnownValidator s.backend (lib.PubkeyHex message.Pubkey) = true)
    (ht : message.Timestamp ≤ (api.datastore.GetValidatorRegistrationTimestamp s.backend
      (lib.PubkeyHex message.Pubkey)).1) :
    registerOne lib api s ⟨some message, sig⟩ =
      { s with calls := s.calls ++ [.IsKnownValidator (lib.PubkeyHex message.Pubkey),
          .GetValidatorRegistrationTimestamp (lib.PubkeyHex message.Pubkey)] } := by
  simp [registerOne, message.Pubkey.property, sig.property, hk, ht]

theorem registerOne_keeps_bound {σ : Type} (lib : TypesLib) (api : RelayAPI σ)
    (hds : LastWriteWins lib api.datastore) (s : HandlerState σ)
    (message : RegisterValidatorRequestMessage) (sig : FixedBytes 96) (bound : Nat)
    (hk : api.datastore.IsKnownValidator s.backend (lib.PubkeyHex message.Pubkey) = true)
    (hv : lib.VerifySignature message api.builderSigningDomain message.Pubkey.val sig.val
      = (true, none))
    (hprior : (api.datastore.GetValidatorRegistrationTimestamp s.backend
      (lib.PubkeyHex message.Pubkey)).1 < bound)
    (hlt : message.Timestamp < bound) :
    api.datastore.IsKnownValidator (registerOne lib api s ⟨some message, sig⟩).backend
        (lib.PubkeyHex message.Pubkey) = true ∧
      (api.datastore.GetValidatorRegistrationTimestamp
        (registerOne lib api s ⟨some message, sig⟩).backend
        (lib.PubkeyHex message.Pubkey)).1 < bound := by
  by_cases ht : (api.datastore.GetValidatorRegistrationTimestamp s.backend
      (lib.PubkeyHex message.Pubkey)).1 < message.Timestamp
  · rw [registerOne_store lib api hds s message sig hk ht hv]
    obtain ⟨_, _, hts, hkn⟩ := hds s.backend ⟨some message, sig⟩ message rfl
    simp only
    rw [hkn, hts]
    exact ⟨hk, hlt⟩
  · rw [registerOne_stale lib api s message sig hk (by omega)]
    exact ⟨hk, hprior⟩

theorem registerOne_timestamp_ge {σ : Type} (lib : TypesLib) (api : RelayAPI σ)
    (hds : LastWriteWins lib api.datastore) (s : HandlerState σ)
    (message : RegisterValidatorRequestMessage) (sig : FixedBytes 96)
    (hk : api.datastore.IsKnownValidator s.backend (lib.PubkeyHex message.Pubkey) = true)
    (hv : lib.VerifySignature message api.builderSigningDomain message.Pubkey.val sig.val
      = (true, none)) :
    api.datastore.IsKnownValidator (registerOne lib api s ⟨some message, sig⟩).backend
        (lib.PubkeyHex message.Pubkey) = true ∧
      message.Timestamp ≤ (api.datastore.GetValidatorRegistrationTimestamp
        (registerOne lib api s ⟨some message, sig⟩).backend
        (lib.PubkeyHex message.Pubkey)).1 := by
  by_cases ht : (api.datastore.GetValidatorRegistrationTimestamp s.backend
      (lib.PubkeyHex message.Pubkey)).1 < message.Timestamp
  · rw [registerOne_store lib api hds s message sig hk ht hv]
    obtain ⟨_, _, hts, hkn⟩ := hds s.backend ⟨some message, sig⟩ message rfl
    simp only
    rw [hkn, hts]
    exact ⟨hk, Nat.le_refl _⟩
  · rw [registerOne_stale lib api s message sig hk (by omega)]
    exact ⟨hk, by simpa using ht⟩

/-- C2 (as stated, fails on the code): with a registration of timestamp `500` already on
file for the key, the three registrations with timestamps `100 < 200 < 300`, processed in
the order `100, 300, 200`, are all stale, and the registration on file afterwards is not
the one with timestamp `300`. -/
theorem handleRegisterValidator_freshness_after_newer :
    ¬ ∀ (lib : TypesLib) (api : RelayAPI MemStore) (st : MemStore) (pubkey : FixedBytes 48)
      (m₁ m₂ m₃ : RegisterValidatorRequestMessage) (sig₁ sig₂ sig₃ : FixedBytes 96),
      LastWriteWins lib api.datastore →
      m₁.Pubkey = pubkey → m₂.Pubkey = pubkey → m₃.Pubkey = pubkey →
      lib.VerifySignature m₁ api.builderSigningDomain pubkey.val sig₁.val = (true, none) →
      lib.VerifySignature m₂ api.builderSigningDomain pubkey.val sig₂.val = (true, none) →
      lib.VerifySignature m₃ api.builderSigningDomain pubkey.val sig₃.val = (true, none) →
      api.datastore.IsKnownValidator st (lib.PubkeyHex pubkey) = true →
      m₁.Timestamp < m₂.Timestamp → m₂.Timestamp < m₃.Timestamp →
      api.datastore.GetValidatorRegistration
          (handleRegisterValidator lib api st
            (.ok [⟨some m₁, sig₁⟩, ⟨some m₃, sig₃⟩, ⟨some m₂, sig₂⟩])).backend
          (lib.PubkeyHex pubkey) = (some ⟨some m₃, sig₃⟩, none) := by
  intro h
  have h' := h sampleLib (sampleAPI []) newerStore sampleKey
    ⟨⟨List.replicate 20 0, by decide⟩, 30000000, 100, sampleKey⟩
    ⟨⟨List.replicate 20 0, by decide⟩, 30000000, 200, sampleKey⟩
    ⟨⟨List.replicate 20 0, by decide⟩, 30000000, 300, sampleKey⟩
    ⟨List.replicate 96 7, by decide⟩ ⟨List.replicate 96 7, by decide⟩
    ⟨List.replicate 96 7, by decide⟩ (memDatastore_lastWriteWins sampleLib) rfl rfl rfl
    (by decide) (by decide) (by decide) (by decide) (by decide) (by decide)
  exact absurd h' (by decide)

/-- C2 (amended): over any datastore whose writes succeed and whose reads return the
registration last written for a key and its timestamp, take a known validator key and three
correctly signed registrations for it with timestamps `t1 < t2 < t3`, processed in the
order `t1, t3, t2`, in one batch or in three successive requests.  From every starting
state the `t2` submission changes nothing: it makes no `SetValidatorRegistration` call,
leaves the datastore state as it was and does not increase `numUpdated`.  When the
timestamp on file for the key before the first submission is below `t3` (in particular
when nothing is on file), the registration on file afterwards is the one with timestamp
`t3`. -/
theorem handleRegisterValidator_freshness {σ : Type} (lib : TypesLib) (api : RelayAPI σ)
    (hds : LastWriteWins lib api.datastore) (st : σ) (pubkey : FixedBytes 48)
    (m₁ m₂ m₃ : RegisterValidatorRequestMessage) (sig₁ sig₂ sig₃ : FixedBytes 96)
    (hm₁ : m₁.Pubkey = pubkey) (hm₂ : m₂.Pubkey = pubkey) (hm₃ : m₃.Pubkey = pubkey)
    (hv₁ : lib.VerifySignature m₁ api.builderSigningDomain pubkey.val sig₁.val = (true, none))
    (hv₃ : lib.VerifySignature m₃ api.builderSigningDomain pubkey.val sig₃.val = (true, none))
    (hknown : api.datastore.IsKnownValidator st (lib.PubkeyHex pubkey) = true)
    (h₁₂ : m₁.Timestamp < m₂.Timestamp) (h₂₃ : m₂.Timestamp < m₃.Timestamp) :
    ((handleRegisterValidator lib api st
          (.ok [⟨some m₁, sig₁⟩, ⟨some m₃, sig₃⟩, ⟨some m₂, sig₂⟩])).backend =
        (handleRegisterValidator lib api st
          (.ok [⟨some m₁, sig₁⟩, ⟨some m₃, sig₃⟩])).backend ∧
      writesOf (handleRegisterValidator lib api st
          (.ok [⟨some m₁, sig₁⟩, ⟨some m₃, sig₃⟩, ⟨some m₂, sig₂⟩])).calls =
        writesOf (handleRegisterValidator lib api st
          (.ok [⟨some m₁, sig₁⟩, ⟨some m₃, sig₃⟩])).calls ∧
      (handleRegisterValidator lib api st
          (.ok [⟨some m₁, sig₁⟩, ⟨some m₃, sig₃⟩, ⟨some m₂, sig₂⟩])).numUpdated =
        (handleRegisterValidator lib api st
          (.ok [⟨some m₁, sig₁⟩, ⟨some m₃, sig₃⟩])).numUpdated) ∧
    ((handleRegisterValidator lib api
          (handleRegisterValidator lib api
            (handleRegisterValidator lib api st (.ok [⟨some m₁, sig₁⟩])).backend
            (.ok [⟨some m₃, sig₃⟩])).backend
          (.ok [⟨some m₂, sig₂⟩])).backend =
        (handleRegisterValidator lib api
          (handleRegisterValidator lib api st (.ok [⟨some m₁, sig₁⟩])).backend
          (.ok [⟨some m₃, sig₃⟩])).backend ∧
      writesOf (handleRegisterValidator lib api
          (handleRegisterValidator lib api
            (handleRegisterValidator lib api st (.ok [⟨some m₁, sig₁⟩])).backend
            (.ok [⟨some m₃, sig₃⟩])).backend
          (.ok [⟨some m₂, sig₂⟩])).calls = [] ∧
      (handleRegisterValidator lib api
          (handleRegisterValidator lib api
            (handleRegisterValidator lib api st (.ok [⟨some m₁, sig₁⟩])).backend
            (.ok [⟨some m₃, sig₃⟩])).backend
          (.ok [⟨some m₂, sig₂⟩])).numUpdated = 0) ∧
    ((api.datastore.GetValidatorRegistrationTimestamp st (lib.PubkeyHex pubkey)).1
        < m₃.Timestamp →
      api.datastore.GetValidatorRegistration
          (handleRegisterValidator lib api st
            (.ok [⟨some m₁, sig₁⟩, ⟨some m₃, sig₃⟩, ⟨some m₂, sig₂⟩])).backend
          (lib.PubkeyHex pubkey) = (some ⟨some m₃, sig₃⟩, none) ∧
        api.datastore.GetValidatorRegistration
          (handleRegisterValidator lib api
            (handleRegisterValidator lib api
              (handleRegisterValidator lib api st (.ok [⟨some m₁, sig₁⟩])).backend
              (.ok [⟨some m₃, sig₃⟩])).backend
            (.ok [⟨some m₂, sig₂⟩])).backend
          (lib.PubkeyHex pubkey) = (some ⟨some m₃, sig₃⟩, none)) := by
  subst hm₁
  have hv₃' : lib.VerifySignature m₃ api.builderSigningDomain m₃.Pubkey.val sig₃.val
      = (true, none) := hm₃ ▸ hv₃
  -- the key stays known while the first registration is processed
  have hk₁ := (registerOne_timestamp_ge lib api hds ⟨st, 0, "", []⟩ m₁ sig₁ hknown hv₁).1
  rw [← hm₃] at hk₁
  -- once the third registration is processed, the timestamp on file is at least `t3`
  obtain ⟨hk₃, hge₃⟩ := registerOne_timestamp_ge lib api hds
    (registerOne lib api ⟨st, 0, "", []⟩ ⟨some m₁, sig₁⟩) m₃ sig₃ hk₁ hv₃'
  obtain ⟨hk₃', hge₃'⟩ := registerOne_timestamp_ge lib api hds
    ⟨(registerOne lib api ⟨st, 0, "", []⟩ ⟨some m₁, sig₁⟩).backend, 0, "", []⟩
    m₃ sig₃ hk₁ hv₃'
  rw [← hm₂.trans hm₃.symm] at hk₃ hge₃ hk₃' hge₃'
  -- so the second registration, arriving last, is stale
  have e₂ := registerOne_stale lib api
    (registerOne lib api (registerOne lib api ⟨st, 0, "", []⟩ ⟨some m₁, sig₁⟩) ⟨some m₃, sig₃⟩)
    m₂ sig₂ hk₃ (Nat.le_of_lt (Nat.lt_of_lt_of_le h₂₃ hge₃))
  have e₂' := registerOne_stale lib api
    ⟨(registerOne lib api
      ⟨(registerOne lib api ⟨st, 0, "", []⟩ ⟨some m₁, sig₁⟩).backend, 0, "", []⟩
      ⟨some m₃, sig₃⟩).backend, 0, "", []⟩
    m₂ sig₂ hk₃' (Nat.le_of_lt (Nat.lt_of_lt_of_le h₂₃ hge₃'))
  simp only [handleRegisterValidator, registerLoop, List.foldl_cons, List.foldl_nil]
  rw [e₂, e₂']
  simp only [writesOf_append, writesOf, List.append_nil, List.nil_append]
  refine ⟨⟨trivial, trivial, trivial⟩, ⟨trivial, trivial, trivial⟩, ?_⟩
  intro hprior
  -- with a timestamp on file below `t3`, the third registration is written
  have hb₁ := (registerOne_keeps_bound lib api hds ⟨st, 0, "", []⟩ m₁ sig₁
    m₃.Timestamp hknown hv₁ hprior (by omega)).2
  rw [← hm₃] at hb₁
  have e₃ := registerOne_store lib api hds (registerOne lib api ⟨st, 0, "", []⟩ ⟨some m₁, sig₁⟩)
    m₃ sig₃ hk₁ hb₁ hv₃'
  have e₃' := registerOne_store lib api hds
    ⟨(registerOne lib api ⟨st, 0, "", []⟩ ⟨some m₁, sig₁⟩).backend, 0, "", []⟩
    m₃ sig₃ hk₁ hb₁ hv₃'
  have hread := (hds (registerOne lib api ⟨st, 0, "", []⟩ ⟨some m₁, sig₁⟩).backend
    ⟨some m₃, sig₃⟩ m₃ rfl).2.1
  rw [e₃, e₃', ← hm₃]
  exact ⟨hread, hread⟩

theorem handleRegisterValidator_freshness_witness :
    (sampleAPI []).datastore.GetValidatorRegistration
        (handleRegisterValidator sampleLib (sampleAPI []) knownStore
          (.ok [sampleRegistration 100, sampleRegistration 300,
            sampleRegistration 200])).backend
        (sampleLib.PubkeyHex sampleKey) = (some (sampleRegistration 300), none) :=
  ((handleRegisterValidator_freshness sampleLib (sampleAPI [])
    (memDatastore_lastWriteWins sampleLib) knownStore sampleKey
    ⟨⟨List.replicate 20 0, by decide⟩, 30000000, 100, sampleKey⟩
    ⟨⟨List.replicate 20 0, by decide⟩, 30000000, 200, sampleKey⟩
    ⟨⟨List.replicate 20 0, by decide⟩, 30000000, 300, sampleKey⟩
    ⟨List.replicate 96 7, by decide⟩ ⟨List.replicate 96 7, by decide⟩
    ⟨List.replicate 96 7, by decide⟩ rfl rfl rfl (by decide) (by decide) (by decide)
    (by decide) (by decide)).2.2 (by decide)).1

/-! ## The payload cache -/

/-- C6 (as stated, fails on the code): two tuples with non-empty components and different
proposer keys and block hashes are formatted to the same key, because the separator `_`
may occur inside the components. -/
theorem executionPayloadKey_not_injective :
    ¬ ∀ (p₁ p₂ : String) (s₁ s₂ : Nat) (k₁ k₂ h₁ h₂ : String),
      k₁ ≠ "" → k₂ ≠ "" → h₁ ≠ "" → h₂ ≠ "" →
      executionPayloadKey p₁ s₁ k₁ h₁ = executionPayloadKey p₂ s₂ k₂ h₂ →
      p₁ = p₂ ∧ s₁ = s₂ ∧ k₁ = k₂ ∧ h₁ = h₂ := by
  intro h
  have := h "" "" 5 5 "a_b" "a" "c" "b_c" (by decide) (by decide) (by decide) (by decide)
    (by decide)
  exact absurd this.2.2.1 (by decide)

/-- C6 (amended): on tuples whose proposer public key and block hash contain no `_`
character, as is the case for hex strings, the key built by `SaveExecutionPayload` and
`GetExecutionPayload` is injective: equal keys come from equal prefixes, slots, proposer
keys and block hashes. -/
theorem executionPayloadKey_injective (p₁ p₂ : String) (s₁ s₂ : Nat) (k₁ k₂ h₁ h₂ : String)
    (hk₁ : '_' ∉ k₁.data) (hk₂ : '_' ∉ k₂.data) (hh₁ : '_' ∉ h₁.data) (hh₂ : '_' ∉ h₂.data)
    (heq : executionPayloadKey p₁ s₁ k₁ h₁ = executionPayloadKey p₂ s₂ k₂ h₂) :
    p₁ = p₂ ∧ s₁ = s₂ ∧ k₁ = k₂ ∧ h₁ = h₂ := by
  have hd := congrArg String.data heq
  rw [executionPayloadKey_data, executionPayloadKey_data] at hd
  obtain ⟨hX, hH⟩ := append_sep_inj hh₁ hh₂ hd
  obtain ⟨hY, hK⟩ := append_sep_inj hk₁ hk₂ hX
  obtain ⟨hZ, hD⟩ := append_sep_inj (toDigits_no_sep s₁).2 (toDigits_no_sep s₂).2 hY
  have hP : p₁.data = p₂.data := by
    have := List.append_cancel_right hZ
    exact List.append_cancel_left this
  exact ⟨String.ext hP, toDigits_injective _ _ hD, String.ext hK, String.ext hH⟩

theorem executionPayloadKey_injective_witness :
    executionPayloadKey "relay-a" 5 "0xabc" "0xdef" =
        "boost-relay/relay-a:cache-getpayload-response:5_0xabc_0xdef" ∧
      ("relay-a" = "relay-a" ∧ 5 = 5 ∧ "0xabc" = "0xabc" ∧ "0xdef" = "0xdef") :=
  ⟨by decide,
   executionPayloadKey_injective "relay-a" "relay-a" 5 5 "0xabc" "0xabc" "0xdef" "0xdef"
    (by decide) (by decide) (by decide) (by decide) rfl⟩

/-- C8: over any backend in which `Set` stores the item under its key and `Get` returns the
value last stored under the key, for non-empty `proposerPubKey` and `blockHash` and
payloads that serialise without error, two `SaveExecutionPayload` calls with the same slot,
key and hash both succeed, and a following `GetExecutionPayload` returns the decoding of
the bytes of the second payload (the decoded value with a `nil` error, or the decoding
error): the second write replaces the first whatever the first payload was. -/
theorem saveExecutionPayload_overwrites {κ P V : Type} (codec : PayloadCodec P V)
    (m : Memcached κ) (hclient : SetThenGet m.client) (st : κ) (slot : Nat)
    (proposerPubKey blockHash : String) (p₁ p₂ : P) (b₁ b₂ : List Nat)
    (hpk : proposerPubKey ≠ "") (hbh : blockHash ≠ "")
    (hb₁ : codec.Marshal p₁ = .ok b₁) (hb₂ : codec.Marshal p₂ = .ok b₂) :
    (SaveExecutionPayload codec m st slot proposerPubKey blockHash p₁).err = none ∧
      (SaveExecutionPayload codec m
        (SaveExecutionPayload codec m st slot proposerPubKey blockHash p₁).backend
        slot proposerPubKey blockHash p₂).err = none ∧
      (∀ v, codec.UnmarshalJSON b₂ = .ok v →
        (GetExecutionPayload codec m
          (SaveExecutionPayload codec m
            (SaveExecutionPayload codec m st slot proposerPubKey blockHash p₁).backend
            slot proposerPubKey blockHash p₂).backend
          slot proposerPubKey blockHash).payload = some v ∧
        (GetExecutionPayload codec m
          (SaveExecutionPayload codec m
            (SaveExecutionPayload codec m st slot proposerPubKey blockHash p₁).backend
            slot proposerPubKey blockHash p₂).backend
          slot proposerPubKey blockHash).err = none) ∧
      (∀ e, codec.UnmarshalJSON b₂ = .error e →
        (GetExecutionPayload codec m
          (SaveExecutionPayload codec m
            (SaveExecutionPayload codec m st slot proposerPubKey blockHash p₁).backend
            slot proposerPubKey blockHash p₂).backend
          slot proposerPubKey blockHash).payload = none ∧
        (GetExecutionPayload codec m
          (SaveExecutionPayload codec m
            (SaveExecutionPayload codec m st slot proposerPubKey blockHash p₁).backend
            slot proposerPubKey blockHash p₂).backend
          slot proposerPubKey blockHash).err = some e) := by
  have h₁ := (hclient st
    ⟨executionPayloadKey m.keyPrefix slot proposerPubKey blockHash, b₁,
      m.defaultMemcachedExpirySeconds⟩).1
  obtain ⟨h₂, got, hget, hval⟩ := hclient
    (m.client.Set st ⟨executionPayloadKey m.keyPrefix slot proposerPubKey blockHash, b₁,
      m.defaultMemcachedExpirySeconds⟩).2
    ⟨executionPayloadKey m.keyPrefix slot proposerPubKey blockHash, b₂,
      m.defaultMemcachedExpirySeconds⟩
  simp only at hget hval
  refine ⟨?_, ?_, ?_, ?_⟩
  · simp [SaveExecutionPayload, hpk, hbh, hb₁, h₁]
  · simp [SaveExecutionPayload, hpk, hbh, hb₁, hb₂, h₂]
  · intro v hv
    simp [SaveExecutionPayload, GetExecutionPayload, hpk, hbh, hb₁, hb₂, hget, hval, hv]
  · intro e he
    simp [SaveExecutionPayload, GetExecutionPayload, hpk, hbh, hb₁, hb₂, hget, hval, he]

theorem mapClient_setThenGet : SetThenGet mapClient := by
  intro st item
  simp [mapClient]

/-- C9: for non-empty `proposerPubKey` and `blockHash`, `GetExecutionPayload` returns the
absent result (`nil` payload, `nil` error) exactly when the backend answers the key with an
error that is a cache miss; any other backend error is returned with a `nil` payload.  An
empty `proposerPubKey` gives `ErrInvalidProposerPublicKey`, and an empty `blockHash` (with
a non-empty key) gives `ErrInvalidBlockHash`, in both cases without a backend call. -/
theorem getExecutionPayload_results {κ P V : Type} (codec : PayloadCodec P V)
    (m : Memcached κ) (st : κ) (slot : Nat) (proposerPubKey blockHash : String) :
    (proposerPubKey ≠ "" → blockHash ≠ "" →
      (((GetExecutionPayload codec m st slot proposerPubKey blockHash).payload = none ∧
          (GetExecutionPayload codec m st slot proposerPubKey blockHash).err = none) ↔
        ∃ e, m.client.Get st (executionPayloadKey m.keyPrefix slot proposerPubKey blockHash)
            = .error e ∧ errorsIs e .ErrCacheMiss = true) ∧
      (∀ e, m.client.Get st (executionPayloadKey m.keyPrefix slot proposerPubKey blockHash)
            = .error e → errorsIs e .ErrCacheMiss = false →
          (GetExecutionPayload codec m st slot proposerPubKey blockHash).payload = none ∧
          (GetExecutionPayload codec m st slot proposerPubKey blockHash).err = some e) ∧
      (GetExecutionPayload codec m st slot proposerPubKey blockHash).calls =
        [.Get (executionPayloadKey m.keyPrefix slot proposerPubKey blockHash)]) ∧
    (proposerPubKey = "" →
      (GetExecutionPayload codec m st slot proposerPubKey blockHash).payload = none ∧
      (GetExecutionPayload codec m st slot proposerPubKey blockHash).err =
        some .ErrInvalidProposerPublicKey ∧
      (GetExecutionPayload codec m st slot proposerPubKey blockHash).calls = []) ∧
    (proposerPubKey ≠ "" → blockHash = "" →
      (GetExecutionPayload codec m st slot proposerPubKey blockHash).payload = none ∧
      (GetExecutionPayload codec m st slot proposerPubKey blockHash).err =
        some .ErrInvalidBlockHash ∧
      (GetExecutionPayload codec m st slot proposerPubKey blockHash).calls = []) := by
  refine ⟨?_, ?_, ?_⟩
  · intro hpk hbh
    unfold GetExecutionPayload
    simp only [hpk, hbh, if_false]
    cases hg : m.client.Get st (executionPayloadKey m.keyPrefix slot proposerPubKey blockHash)
      with
    | error e =>
      cases hmiss : errorsIs e .ErrCacheMiss <;> simp [hmiss]
    | ok item =>
      cases hu : codec.UnmarshalJSON item.Value <;> simp [hu]
  · intro hpk
    simp [GetExecutionPayload, hpk]
  · intro hpk hbh
    simp [GetExecutionPayload, hpk, hbh]

theorem saveExecutionPayload_overwrites_witness :
    (GetExecutionPayload sampleCodec ⟨mapClient, "", 45⟩
      (SaveExecutionPayload sampleCodec ⟨mapClient, "", 45⟩
        (SaveExecutionPayload sampleCodec ⟨mapClient, "", 45⟩ [] 5 "0xabc" "0xdef" [1]).backend
        5 "0xabc" "0xdef" [2]).backend 5 "0xabc" "0xdef").payload = some [2] :=
  ((saveExecutionPayload_overwrites sampleCodec ⟨mapClient, "", 45⟩ mapClient_setThenGet []
    5 "0xabc" "0xdef" [1] [2] [1] [2] (by decide) (by decide) rfl rfl).2.2.1 [2] rfl).1

theorem getExecutionPayload_results_witness :
    (GetExecutionPayload sampleCodec ⟨mapClient, "", 45⟩ [] 5 "0xabc" "0xdef").payload = none ∧
      (GetExecutionPayload sampleCodec ⟨mapClient, "", 45⟩ [] 5 "0xabc" "0xdef").err = none :=
  ((getExecutionPayload_results sampleCodec ⟨mapClient, "", 45⟩ [] 5 "0xabc" "0xdef").1
    (by decide) (by decide)).1.mpr ⟨.ErrCacheMiss, rfl, rfl⟩

end MevBoostRelay
